import Mathlib

/-!
Shallow embedding of the crystal-viewer repository's core utility modules:

* `src/utils/exporters.py`     — POSCAR/CIF/ZIP serialization (`to_zip`)
* `src/utils/mp_client.py`     — Materials Project client (`search_by_formula`)
* `src/utils/interface_builder.py` — substrate screening (`analyze_substrates`),
  strain computation (`compute_interface_strain`), coherent-interface
  generation (`get_terminations`, `count_zsl_matches`, `build_interfaces`)

External pymatgen objects (Structure, CoherentInterfaceBuilder, ZSL matches)
are embedded as abstract data: a builder is a record carrying its precomputed
ZSL-match list and its interface iterator (a pure function of the termination
and the two thicknesses, since the Python generator is driven only by those
arguments and the builder's own state).  Floating-point quantities that the
Python code merely stores, compares and sorts are embedded as rationals;
the von Mises strain computation, which takes a real square root, is embedded
over the reals.
-/

namespace CrystalViewer

/-! ### exporters.py -/

/-- One entry of the ZIP archive produced by `to_zip`: a file name and its
text content (`zipfile.ZipFile.writestr(name, data)`). -/
structure ZipEntry where
  name : String
  content : String
deriving DecidableEq, Repr

section Exporters

/- `to_poscar` and `to_cif` delegate wholly to pymatgen serializers; they are
abstract text-producing functions here. `S` is the abstract Structure type. -/
variable {S : Type} (to_poscar : S → String) (to_cif : S → String)

/-- `exporters.to_zip`: iterate over the mapping in order; for each
`(label, struct)` write `label ++ ".vasp"` with the POSCAR text and then
`label ++ ".cif"` with the CIF text.  A Python `dict` iterates in insertion
order, so the mapping is embedded as an association list. -/
def to_zip : List (String × S) → List ZipEntry
  | [] => []
  | (label, s) :: rest =>
      ⟨label ++ ".vasp", to_poscar s⟩ ::
      ⟨label ++ ".cif", to_cif s⟩ :: to_zip rest

end Exporters

/-! ### mp_client.py -/

/-- One summary document returned by the Materials Project API for a formula
search, restricted to the four requested fields.  `energy_above_hull` may be
absent (`None` in Python). -/
structure MPDoc where
  material_id : String
  formula_pretty : String
  energy_above_hull : Option ℚ
  nsites : ℕ
deriving DecidableEq, Repr

/-- The sort key used by `search_by_formula`:
`lambda x: x["energy_above_hull"] or 0.0`.  For a numeric-or-None value this
is `0.0` when the value is `None` (and `0.0 or 0.0` is `0.0`), i.e. `getD 0`. -/
def hullKey (d : MPDoc) : ℚ := d.energy_above_hull.getD 0

/-- Comparison by `hullKey`; `list.sort` sorts ascending by the key. -/
def hullLE (a b : MPDoc) : Prop := hullKey a ≤ hullKey b

instance : DecidableRel hullLE := fun a b =>
  (inferInstance : Decidable (hullKey a ≤ hullKey b))

instance : IsTotal MPDoc hullLE := ⟨fun a b => le_total (hullKey a) (hullKey b)⟩

instance : IsTrans MPDoc hullLE := ⟨fun _ _ _ => le_trans⟩

/-- `mp_client.search_by_formula`, after the API call: raises `ValueError`
when the document list is empty, otherwise copies the four fields of each
document into a result dict and stably sorts the list ascending by
`energy_above_hull or 0.0`.  The network call itself is external; the
function is embedded as acting on the returned document list. -/
def search_by_formula (docs : List MPDoc) : Except String (List MPDoc) :=
  if docs = [] then
    .error "No materials found for formula."
  else
    .ok (List.insertionSort hullLE docs)

/-! ### interface_builder.py : analyze_substrates -/

/-- A Miller index as the Python code handles it: an integer triple. -/
abbrev Miller := ℤ × ℤ × ℤ

/-- A substrate match as consumed by `analyze_substrates`: the four
attributes the function reads off each `SubstrateMatch` object. -/
structure SubstrateMatch where
  film_miller : Miller
  substrate_miller : Miller
  von_mises_strain : ℚ
  match_area : ℚ
deriving DecidableEq, Repr

/-- The orientation pair of a match. -/
def matchPair (m : SubstrateMatch) : Miller × Miller :=
  (m.film_miller, m.substrate_miller)

/-- Strict "better" order used to keep the best match of an orientation
pair: lower strain, ties broken by smaller area. -/
def betterMatch (a b : SubstrateMatch) : Bool :=
  decide (a.von_mises_strain < b.von_mises_strain ∨
    (a.von_mises_strain = b.von_mises_strain ∧ a.match_area < b.match_area))

/-- Fold selecting the best (lowest-strain, then lowest-area) match. -/
def bestOf (m : SubstrateMatch) (ms : List SubstrateMatch) : SubstrateMatch :=
  ms.foldl (fun acc x => if betterMatch x acc then x else acc) m

/-- Modelled from the spec: `SubstrateAnalyzer.calculate(film, substrate,
lowest=True)` is pymatgen library code not present in this repository.  Per
the spec it returns, for each (film Miller, substrate Miller) orientation
pair having at least one ZSL match, the single lowest-strain match for that
pair (ties broken by smallest area).  `pool` is the full match pool; the
result keeps one representative per orientation pair occurring in it.
`pickBest` selects that representative for one orientation pair. -/
def pickBest (pool : List SubstrateMatch) (p : Miller × Miller) :
    Option SubstrateMatch :=
  match pool.filter (fun m => decide (matchPair m = p)) with
  | [] => none
  | m :: ms => some (bestOf m ms)

/-- Modelled from the spec (see `pickBest`): one lowest-strain representative
per orientation pair occurring in the pool. -/
def calculateLowest (pool : List SubstrateMatch) : List SubstrateMatch :=
  ((pool.map matchPair).dedup).filterMap (pickBest pool)

/-- Ascending strain comparison on result rows (`key=lambda r:
r["von_mises_strain"]`). -/
def strainLE (a b : SubstrateMatch) : Prop :=
  a.von_mises_strain ≤ b.von_mises_strain

instance : DecidableRel strainLE := fun a b =>
  (inferInstance : Decidable (a.von_mises_strain ≤ b.von_mises_strain))

instance : IsTotal SubstrateMatch strainLE :=
  ⟨fun a b => le_total a.von_mises_strain b.von_mises_strain⟩

instance : IsTrans SubstrateMatch strainLE := ⟨fun _ _ _ => le_trans⟩

/-- `interface_builder.analyze_substrates`: collect the matches produced by
`SubstrateAnalyzer.calculate(..., lowest=True)`, copy each match's four
attributes into a result dict (the dict carries exactly the four fields of
`SubstrateMatch`, so the copy is the identity here), and stably sort the
list ascending by `von_mises_strain`. -/
def analyze_substrates (pool : List SubstrateMatch) : List SubstrateMatch :=
  List.insertionSort strainLE (calculateLowest pool)

/-! ### interface_builder.py : compute_interface_strain

`Deformation(match.match_transformation)` wraps the 3×3 transformation
matrix `F`; `.green_lagrange_strain` is `½(Fᵀ·F − I)`; `.von_mises_strain`
on a strain tensor `E` is `sqrt(2/3 · Σᵢⱼ devᵢⱼ²)` where
`dev = E − (tr E / 3)·I`.  The `film_structure` and `film_miller` parameters
of the Python function are unused by its body. -/

/-- Green–Lagrange strain of a deformation gradient `F`. -/
noncomputable def green_lagrange_strain (F : Matrix (Fin 3) (Fin 3) ℝ) :
    Matrix (Fin 3) (Fin 3) ℝ :=
  (1 / 2 : ℝ) • (F.transpose * F - 1)

/-- Deviatoric part of a strain tensor. -/
noncomputable def deviatoricPart (E : Matrix (Fin 3) (Fin 3) ℝ) :
    Matrix (Fin 3) (Fin 3) ℝ :=
  E - ((Matrix.trace E) / 3) • (1 : Matrix (Fin 3) (Fin 3) ℝ)

/-- Von Mises scalar of a strain tensor. -/
noncomputable def von_mises_of (E : Matrix (Fin 3) (Fin 3) ℝ) : ℝ :=
  Real.sqrt ((2 / 3) * ∑ i : Fin 3, ∑ j : Fin 3, (deviatoricPart E i j) ^ 2)

/-- `interface_builder.compute_interface_strain`, acting on the match's
transformation matrix (the only datum of the match the body reads). -/
noncomputable def compute_interface_strain (F : Matrix (Fin 3) (Fin 3) ℝ) : ℝ :=
  von_mises_of (green_lagrange_strain F)

/-! ### interface_builder.py : the coherent-interface builder

The pymatgen `CoherentInterfaceBuilder` is embedded as a record of the state
the Python code reads: its precomputed ZSL-match list, its termination list,
and `get_interfaces` as a pure function of the termination and the two
thickness arguments (the Python generator is driven only by those arguments
and the builder's own immutable state).  `Z` is the abstract type of ZSL
matches, `I` of interface structures, `T` of terminations. -/

/-- Abstract `CoherentInterfaceBuilder` state. -/
structure Builder (Z I T : Type) where
  zsl_matches : List Z
  terminations : List T
  get_interfaces : T → ℤ → ℤ → List I

/-- `interface_builder.count_zsl_matches`: `len(cib.zsl_matches)`. -/
def count_zsl_matches {Z I T : Type} (cib : Builder Z I T) : ℕ :=
  cib.zsl_matches.length

/-- `interface_builder.get_terminations`: builds a `ZSLGenerator` with the
given `max_area`, a `CoherentInterfaceBuilder` over the two structures and
two Miller indices, and returns `(cib, cib.terminations)`.  The pymatgen
constructors are abstracted as `mkBuilder`; the function body performs no
parameter validation of its own — every input reaches `mkBuilder`. -/
def get_terminations {S Z I T : Type} (mkBuilder : S → S → Miller → Miller → ℚ → Builder Z I T)
    (substrate film : S) (substrate_miller film_miller : Miller) (max_area : ℚ) :
    Builder Z I T × List T :=
  let cib := mkBuilder substrate film substrate_miller film_miller max_area
  (cib, cib.terminations)

/-- One result dict of `build_interfaces`: keys `"structure"`,
`"match_area"`, `"von_mises_strain"`. -/
structure InterfaceEntry (I : Type) where
  struct : I
  match_area : ℚ
  von_mises_strain : ℚ
deriving DecidableEq, Repr

section BuildInterfaces

/- Per-match data read inside the loop: `zsl_matches[i].match_area`, and the
strain computation `compute_interface_strain(zsl_matches[i], ...)` wrapped in
`try/except` — embedded as `strainTry`, returning `none` when the Python call
would raise (the `except` branch substitutes `0.0`). -/
variable {Z I FS : Type} (area : Z → ℚ) (strainTry : Z → Option ℚ)

/-- The dict appended for the `i`-th yielded interface:
`area = zsl_matches[i].match_area if i < len(zsl_matches) else 0.0`; the
strain is computed only when both `film_structure` and `film_miller` were
supplied and `i < len(zsl_matches)`, and falls back to `0.0` when the
computation raises; otherwise it is left at its initialization `0.0`. -/
def entryAt (zmatches : List Z) (haveFilm : Bool) (i : ℕ) (iface : I) :
    InterfaceEntry I :=
  { struct := iface
    match_area := ((zmatches[i]?.map area).getD 0)
    von_mises_strain :=
      if haveFilm then ((zmatches[i]?.bind strainTry).getD 0) else 0 }

/-- The `for i, iface in enumerate(iterator)` loop of `build_interfaces`,
returning the accumulated result list together with the sequence of
`progress_callback(len(results), total)` invocation arguments.  After
appending an entry the loop breaks when `num_interfaces` is not `None` and
`len(results) >= num_interfaces`; since only this loop appends,
`len(results)` at iteration `i` is `i + 1`. -/
def buildLoop (zmatches : List Z) (haveFilm : Bool) (num : Option ℤ)
    (total : ℕ) : List I → ℕ → List (InterfaceEntry I) × List (ℕ × ℕ)
  | [], _ => ([], [])
  | iface :: rest, i =>
    let entry := entryAt area strainTry zmatches haveFilm i iface
    let stop : Bool := match num with
      | none => false
      | some n => decide ((i : ℤ) + 1 ≥ n)
    if stop then ([entry], [(i + 1, total)])
    else
      let tail := buildLoop zmatches haveFilm num total rest (i + 1)
      (entry :: tail.1, (i + 1, total) :: tail.2)

/-- `interface_builder.build_interfaces`.  Obtains the iterator from
`cib.get_interfaces(termination, film_thickness, substrate_thickness)`,
sets `total = count_zsl_matches(cib)`, and runs the loop.  The first
component is the returned list; the second is the list of arguments passed
to `progress_callback` (empty when no callback was supplied, `hasCb =
false`).  No parameter validation occurs anywhere in the body. -/
def build_interfaces {Z I T FS : Type} (ar : Z → ℚ) (st : Z → Option ℚ)
    (cib : Builder Z I T) (termination : T)
    (film_thickness : ℤ) (substrate_thickness : ℤ)
    (num_interfaces : Option ℤ) (hasCb : Bool)
    (film_structure : Option FS) (film_miller : Option Miller) :
    List (InterfaceEntry I) × List (ℕ × ℕ) :=
  let iterator := cib.get_interfaces termination film_thickness substrate_thickness
  let haveFilm : Bool := film_structure.isSome && film_miller.isSome
  let out := buildLoop ar st cib.zsl_matches haveFilm num_interfaces
    (count_zsl_matches cib) iterator 0
  (out.1, if hasCb then out.2 else [])

/-- Specification-side description of the loop's output: the entry built for
each yielded interface, indices threaded from `i`. -/
def entriesFrom (zmatches : List Z) (haveFilm : Bool) :
    ℕ → List I → List (InterfaceEntry I)
  | _, [] => []
  | i, x :: xs =>
      entryAt area strainTry zmatches haveFilm i x ::
      entriesFrom zmatches haveFilm (i + 1) xs

end BuildInterfaces

/-- How many interfaces the loop consumes from index `i` on when
`num_interfaces = some n`: the bound is checked only after the first append,
so at least one element is always taken. -/
def takeCount (n : ℤ) (i : ℕ) : ℕ :=
  if n ≤ (i : ℤ) + 1 then 1 else (n - i).toNat

/-- Number of interfaces consumed from index `i` for a given
`num_interfaces` argument, out of `len` available. -/
def loopBound (num : Option ℤ) (len : ℕ) (i : ℕ) : ℕ :=
  match num with
  | none => len
  | some n => takeCount n i

/-- Specification-side description of the progress-callback invocations: one
call per produced interface, the `k`-th (from index `i`) receiving
`(i + k + 1, total)` — i.e. `(len(results) so far, total match count)`. -/
def logFrom (total : ℕ) : ℕ → ℕ → List (ℕ × ℕ)
  | _, 0 => []
  | i, m + 1 => (i + 1, total) :: logFrom total (i + 1) m

/-! ### Concrete instances used to evaluate the theorems below -/

/-- A builder with 37 ZSL matches whose iterator yields one interface per
match (the §8 scenario). -/
def cib37 : Builder ℕ ℕ Unit :=
  { zsl_matches := List.range 37
    terminations := [()]
    get_interfaces := fun _ _ _ => List.range 37 }

/-- A one-match, one-interface builder: the match has `match_area = 3` and
its (always succeeding) strain computation yields `4`. -/
def cib1 : Builder ℕ ℕ Unit :=
  { zsl_matches := [3]
    terminations := [()]
    get_interfaces := fun _ _ _ => [7] }

/-- Area accessor for the concrete builders: the match datum itself. -/
def areaOfNat (z : ℕ) : ℚ := (z : ℚ)

/-- Strain computation for the concrete builders: always succeeds with
`z + 1`. -/
def strainTryNat (z : ℕ) : Option ℚ := some ((z + 1 : ℕ) : ℚ)

/-- A concrete abstract-builder constructor for `get_terminations`
instances: records nothing and exposes one termination and a one-element
iterator. -/
def mkBuilderConst : Unit → Unit → Miller → Miller → ℚ → Builder ℕ ℕ Unit :=
  fun _ _ _ _ _ => cib1

/-- Concrete match pool for the substrate-screening theorems: two matches
for the orientation pair ((1,0,0),(1,0,0)) with strains 3 and 1, and one
match for ((0,1,0),(1,0,0)) with strain 2. -/
def pool0 : List SubstrateMatch :=
  [ ⟨(1, 0, 0), (1, 0, 0), 3, 10⟩,
    ⟨(1, 0, 0), (1, 0, 0), 1, 5⟩,
    ⟨(0, 1, 0), (1, 0, 0), 2, 7⟩ ]

/-! ## Theorems -/

/-! ### exporters.py : to_zip (C9) -/

section ExportersThm

variable {S : Type} (tp tc : S → String)

lemma to_zip_length (L : List (String × S)) :
    (to_zip tp tc L).length = 2 * L.length := by
  induction L with
  | nil => rfl
  | cons x xs ih =>
      obtain ⟨label, s⟩ := x
      simp only [to_zip, List.length_cons, ih]
      omega

lemma to_zip_get (L : List (String × S)) :
    ∀ j (hj : j < L.length),
      (to_zip tp tc L)[2 * j]? =
        some ⟨(L.get ⟨j, hj⟩).1 ++ ".vasp", tp (L.get ⟨j, hj⟩).2⟩ ∧
      (to_zip tp tc L)[2 * j + 1]? =
        some ⟨(L.get ⟨j, hj⟩).1 ++ ".cif", tc (L.get ⟨j, hj⟩).2⟩ := by
  induction L with
  | nil => intro j hj; exact absurd hj (by simp)
  | cons x xs ih =>
      obtain ⟨label, s⟩ := x
      intro j hj
      cases j with
      | zero => simp [to_zip]
      | succ k =>
          have harith : 2 * (k + 1) = 2 * k + 1 + 1 := by omega
          have harith' : 2 * (k + 1) + 1 = (2 * k + 1) + 1 + 1 := by omega
          have hk : k < xs.length := by
            simpa using Nat.lt_of_succ_lt_succ hj
          have := ih k hk
          constructor
          · rw [harith]
            simpa [to_zip] using this.1
          · rw [harith']
            simpa [to_zip] using this.2

/-- C9: for every label-to-structure mapping, `to_zip` produces exactly two
archive entries per input label — `label ++ ".vasp"` with the POSCAR text
followed by `label ++ ".cif"` with the CIF text — hence `2 · n` entries for
`n` structures, in the mapping's iteration order. -/
theorem to_zip_two_entries_per_label (L : List (String × S)) :
    (to_zip tp tc L).length = 2 * L.length ∧
    ∀ j (hj : j < L.length),
      (to_zip tp tc L)[2 * j]? =
        some ⟨(L.get ⟨j, hj⟩).1 ++ ".vasp", tp (L.get ⟨j, hj⟩).2⟩ ∧
      (to_zip tp tc L)[2 * j + 1]? =
        some ⟨(L.get ⟨j, hj⟩).1 ++ ".cif", tc (L.get ⟨j, hj⟩).2⟩ :=
  ⟨to_zip_length tp tc L, to_zip_get tp tc L⟩

end ExportersThm

/-- Evaluation of C9 on a concrete two-element mapping. -/
theorem to_zip_two_entries_per_label_witness :
    (to_zip (fun _ : Unit => "P") (fun _ => "C") [("a", ()), ("b", ())]).length = 4 ∧
    (to_zip (fun _ : Unit => "P") (fun _ => "C") [("a", ()), ("b", ())])[2]? =
      some ⟨"b.vasp", "P"⟩ := by
  have h := to_zip_two_entries_per_label (fun _ : Unit => "P") (fun _ => "C")
    [("a", ()), ("b", ())]
  refine ⟨by simpa using h.1, ?_⟩
  have h2 := (h.2 1 (by decide)).1
  simpa using h2

/-! ### mp_client.py : search_by_formula (C10) -/

/-- C10: on a nonempty document list, `search_by_formula` returns the rows
stably sorted ascending by `energy_above_hull or 0.0`; a row with no
stability data (`None`) is keyed as `0.0`, so it is placed ahead of every
row whose energy above hull is positive. -/
theorem search_by_formula_sorts_none_as_zero (docs : List MPDoc) (l : List MPDoc)
    (hok : search_by_formula docs = .ok l) :
    l.Sorted hullLE ∧ l.Perm docs ∧
    ∀ (i j : Fin l.length),
      (l.get i).energy_above_hull = none →
      (∀ v : ℚ, (l.get j).energy_above_hull = some v → 0 < v) →
      (l.get j).energy_above_hull ≠ none →
      (i : ℕ) < (j : ℕ) := by
  have hne : docs ≠ [] := by
    intro hnil
    rw [search_by_formula, if_pos hnil] at hok
    exact Except.noConfusion hok
  rw [search_by_formula, if_neg hne] at hok
  have hl : l = List.insertionSort hullLE docs := by
    cases hok; rfl
  subst hl
  refine ⟨List.sorted_insertionSort hullLE docs, List.perm_insertionSort hullLE docs, ?_⟩
  intro i j hi hj hjne
  by_contra hij
  have hji : j ≤ i := by
    have := Nat.le_of_not_lt hij
    exact Fin.le_def.mpr this
  rcases eq_or_lt_of_le hji with heq | hlt
  · rw [← heq] at hi
    exact hjne hi
  · have hrel := (List.sorted_insertionSort hullLE docs).rel_get_of_lt hlt
    obtain ⟨v, hv⟩ : ∃ v, ((List.insertionSort hullLE docs).get j).energy_above_hull = some v := by
      cases hcase : ((List.insertionSort hullLE docs).get j).energy_above_hull with
      | none => exact absurd hcase hjne
      | some v => exact ⟨v, rfl⟩
    have hvpos : 0 < v := hj v hv
    have hkey_j : hullKey ((List.insertionSort hullLE docs).get j) = v := by
      simp only [hullKey]; rw [hv]; rfl
    have hkey_i : hullKey ((List.insertionSort hullLE docs).get i) = 0 := by
      simp only [hullKey]; rw [hi]; rfl
    have : hullKey ((List.insertionSort hullLE docs).get j) ≤
        hullKey ((List.insertionSort hullLE docs).get i) := hrel
    rw [hkey_j, hkey_i] at this
    exact absurd (lt_of_lt_of_le hvpos this) (lt_irrefl 0)

/-- Evaluation of C10 on a concrete document list: a `None`-energy row is
sorted ahead of a positive-energy row. -/
theorem search_by_formula_sorts_none_as_zero_witness :
    ∃ l, search_by_formula
        [ ⟨"mp-1", "Si", some 1, 2⟩, ⟨"mp-2", "Si", none, 4⟩ ] = .ok l ∧
      l.Sorted hullLE ∧
      l = [ ⟨"mp-2", "Si", none, 4⟩, ⟨"mp-1", "Si", some 1, 2⟩ ] := by
  refine ⟨List.insertionSort hullLE
      [ ⟨"mp-1", "Si", some 1, 2⟩, ⟨"mp-2", "Si", none, 4⟩ ], rfl, ?_, ?_⟩
  · exact (search_by_formula_sorts_none_as_zero
      [ ⟨"mp-1", "Si", some 1, 2⟩, ⟨"mp-2", "Si", none, 4⟩ ] _ rfl).1
  · decide

/-! ### interface_builder.py : compute_interface_strain (C7) -/

lemma von_mises_radicand_nonneg (E : Matrix (Fin 3) (Fin 3) ℝ) :
    0 ≤ (2 / 3) * ∑ i : Fin 3, ∑ j : Fin 3, (deviatoricPart E i j) ^ 2 := by
  apply mul_nonneg (by norm_num)
  apply Finset.sum_nonneg
  intro i _
  apply Finset.sum_nonneg
  intro j _
  exact sq_nonneg _

lemma green_lagrange_strain_one :
    green_lagrange_strain (1 : Matrix (Fin 3) (Fin 3) ℝ) = 0 := by
  simp [green_lagrange_strain]

lemma von_mises_of_zero : von_mises_of (0 : Matrix (Fin 3) (Fin 3) ℝ) = 0 := by
  have hdev : deviatoricPart (0 : Matrix (Fin 3) (Fin 3) ℝ) = 0 := by
    simp [deviatoricPart]
  rw [von_mises_of]
  rw [hdev]
  simp

/-- C7: for every ZSL match (represented by its 3×3 matching-transformation
matrix `F`), `compute_interface_strain` returns the von Mises scalar of the
Green–Lagrange strain tensor derived from `F`; the returned scalar is the
square root of a non-negative quantity, hence non-negative, and a perfect
strain-free coincidence (`F = 1`, no deformation) gives exactly `0`. -/
theorem compute_interface_strain_nonneg (F : Matrix (Fin 3) (Fin 3) ℝ) :
    compute_interface_strain F = von_mises_of (green_lagrange_strain F) ∧
    0 ≤ compute_interface_strain F ∧
    (F = 1 → compute_interface_strain F = 0) := by
  refine ⟨rfl, Real.sqrt_nonneg _, ?_⟩
  intro h1
  rw [compute_interface_strain, h1, green_lagrange_strain_one, von_mises_of_zero]

/-- Evaluation of C7 at the identity transformation. -/
theorem compute_interface_strain_nonneg_witness :
    0 ≤ compute_interface_strain (1 : Matrix (Fin 3) (Fin 3) ℝ) ∧
    compute_interface_strain (1 : Matrix (Fin 3) (Fin 3) ℝ) = 0 :=
  ⟨(compute_interface_strain_nonneg 1).2.1,
   (compute_interface_strain_nonneg 1).2.2 rfl⟩

/-! ### interface_builder.py : build_interfaces — loop lemmas -/

section BuildLoopLemmas

variable {Z I : Type} (area : Z → ℚ) (strainTry : Z → Option ℚ)

lemma entriesFrom_length (zm : List Z) (hf : Bool) :
    ∀ (i : ℕ) (xs : List I),
      (entriesFrom area strainTry zm hf i xs).length = xs.length := by
  intro i xs
  induction xs generalizing i with
  | nil => rfl
  | cons x rest ih => simp [entriesFrom, ih]

lemma entriesFrom_get (zm : List Z) (hf : Bool) :
    ∀ (xs : List I) (i j : ℕ),
      (entriesFrom area strainTry zm hf i xs)[j]? =
        xs[j]?.map (fun x => entryAt area strainTry zm hf (i + j) x) := by
  intro xs
  induction xs with
  | nil => intro i j; simp [entriesFrom]
  | cons x rest ih =>
      intro i j
      cases j with
      | zero => simp [entriesFrom]
      | succ k =>
          simp only [entriesFrom, List.getElem?_cons_succ, ih (i + 1) k]
          have : i + 1 + k = i + (k + 1) := by omega
          rw [this]

lemma takeCount_pos (n : ℤ) (i : ℕ) : 1 ≤ takeCount n i := by
  rw [takeCount]
  split <;> omega

lemma takeCount_succ (n : ℤ) (i : ℕ) (h : (i : ℤ) + 1 < n) :
    takeCount n i = takeCount n (i + 1) + 1 := by
  rw [takeCount, takeCount]
  split <;> split <;> omega

lemma buildLoop_fst (zm : List Z) (hf : Bool) (total : ℕ) (num : Option ℤ) :
    ∀ (xs : List I) (i : ℕ),
      (buildLoop area strainTry zm hf num total xs i).1 =
        entriesFrom area strainTry zm hf i
          (xs.take (loopBound num xs.length i)) := by
  intro xs
  induction xs with
  | nil =>
      intro i
      cases num <;> simp [buildLoop, entriesFrom]
  | cons x rest ih =>
      intro i
      cases num with
      | none =>
          simp only [buildLoop, loopBound, List.length_cons, List.take_succ_cons,
            List.take_length, if_neg Bool.false_ne_true]
          simp only [entriesFrom]
          rw [ih (i + 1)]
          simp [loopBound]
      | some n =>
          by_cases hstop : (i : ℤ) + 1 ≥ n
          · have h1 : takeCount n i = 1 := by rw [takeCount]; rw [if_pos (by omega)]
            simp only [buildLoop, loopBound, h1, List.take_succ_cons, List.take_zero]
            rw [if_pos (by simpa using hstop)]
            simp [entriesFrom]
          · have hlt : (i : ℤ) + 1 < n := by omega
            have h1 : takeCount n i = takeCount n (i + 1) + 1 := takeCount_succ n i hlt
            simp only [buildLoop, loopBound, h1, List.take_succ_cons]
            rw [if_neg (by simpa using hstop)]
            simp only [entriesFrom]
            rw [ih (i + 1)]
            simp [loopBound]

lemma buildLoop_snd (zm : List Z) (hf : Bool) (total : ℕ) (num : Option ℤ) :
    ∀ (xs : List I) (i : ℕ),
      (buildLoop area strainTry zm hf num total xs i).2 =
        logFrom total i (buildLoop area strainTry zm hf num total xs i).1.length := by
  intro xs
  induction xs with
  | nil =>
      intro i
      cases num <;> simp [buildLoop, logFrom]
  | cons x rest ih =>
      intro i
      cases num with
      | none =>
          simp only [buildLoop, if_neg Bool.false_ne_true, List.length_cons]
          rw [ih (i + 1)]
          rfl
      | some n =>
          by_cases hstop : (i : ℤ) + 1 ≥ n
          · simp only [buildLoop]
            rw [if_pos (by simpa using hstop)]
            rfl
          · simp only [buildLoop]
            rw [if_neg (by simpa using hstop)]
            simp only [List.length_cons]
            rw [ih (i + 1)]
            rfl

lemma logFrom_get (total : ℕ) :
    ∀ (m i k : ℕ),
      (logFrom total i m)[k]? =
        if k < m then some (i + k + 1, total) else none := by
  intro m
  induction m with
  | zero => intro i k; simp [logFrom]
  | succ m ih =>
      intro i k
      cases k with
      | zero => simp [logFrom]
      | succ k =>
          simp only [logFrom, List.getElem?_cons_succ, ih (i + 1) k]
          by_cases hk : k < m
          · rw [if_pos hk, if_pos (by omega)]
            have : i + 1 + k + 1 = i + (k + 1) + 1 := by omega
            rw [this]
          · rw [if_neg hk, if_neg (by omega)]

lemma logFrom_length (total : ℕ) :
    ∀ (m i : ℕ), (logFrom total i m).length = m := by
  intro m
  induction m with
  | zero => intro i; rfl
  | succ m ih => intro i; simp [logFrom, ih]

end BuildLoopLemmas

/-! ### interface_builder.py : build_interfaces — claim theorems -/

/-- C2: with `num_interfaces = None`, `build_interfaces` returns one entry
per interface yielded by the builder's iterator (so a builder whose iterator
yields one interface per each of its 37 matches produces exactly 37
entries); with `num_interfaces = some n`, `n ≥ 1`, it returns the entries
for the first `min n (number yielded)` interfaces, in iterator (match-rank)
order. -/
theorem build_interfaces_respects_count {Z I T FS : Type} (ar : Z → ℚ)
    (st : Z → Option ℚ) (cib : Builder Z I T) (t : T) (ft sth : ℤ)
    (cb : Bool) (fs : Option FS) (fm : Option Miller) :
    ((build_interfaces ar st cib t ft sth none cb fs fm).1 =
        entriesFrom ar st cib.zsl_matches (fs.isSome && fm.isSome) 0
          (cib.get_interfaces t ft sth) ∧
      (build_interfaces ar st cib t ft sth none cb fs fm).1.length =
        (cib.get_interfaces t ft sth).length) ∧
    ∀ n : ℤ, 1 ≤ n →
      (build_interfaces ar st cib t ft sth (some n) cb fs fm).1 =
        entriesFrom ar st cib.zsl_matches (fs.isSome && fm.isSome) 0
          ((cib.get_interfaces t ft sth).take n.toNat) ∧
      (build_interfaces ar st cib t ft sth (some n) cb fs fm).1.length =
        min n.toNat (cib.get_interfaces t ft sth).length := by
  constructor
  · have h := buildLoop_fst ar st cib.zsl_matches (fs.isSome && fm.isSome)
      (count_zsl_matches cib) none (cib.get_interfaces t ft sth) 0
    rw [loopBound, List.take_length] at h
    refine ⟨h, ?_⟩
    rw [show (build_interfaces ar st cib t ft sth none cb fs fm).1 =
      (buildLoop ar st cib.zsl_matches (fs.isSome && fm.isSome) none
        (count_zsl_matches cib) (cib.get_interfaces t ft sth) 0).1 from rfl, h]
    exact entriesFrom_length ar st _ _ _ _
  · intro n hn
    have h := buildLoop_fst ar st cib.zsl_matches (fs.isSome && fm.isSome)
      (count_zsl_matches cib) (some n) (cib.get_interfaces t ft sth) 0
    have hcount : loopBound (some n) (cib.get_interfaces t ft sth).length 0 = n.toNat := by
      rw [loopBound, takeCount]
      split <;> omega
    rw [hcount] at h
    refine ⟨h, ?_⟩
    rw [show (build_interfaces ar st cib t ft sth (some n) cb fs fm).1 =
      (buildLoop ar st cib.zsl_matches (fs.isSome && fm.isSome) (some n)
        (count_zsl_matches cib) (cib.get_interfaces t ft sth) 0).1 from rfl, h]
    rw [entriesFrom_length ar st _ _ _ _, List.length_take]

/-- Evaluation of C2 on the §8 scenario builder: 37 matches, one interface
per match; unbounded generation yields exactly 37 entries, and a bound of 5
yields 5. -/
theorem build_interfaces_respects_count_witness :
    (build_interfaces areaOfNat strainTryNat cib37 () 18 12 none false
        (none : Option Unit) none).1.length = 37 ∧
    (build_interfaces areaOfNat strainTryNat cib37 () 18 12 (some 5) false
        (none : Option Unit) none).1.length = 5 := by
  have h := build_interfaces_respects_count areaOfNat strainTryNat cib37 () 18 12
    false (none : Option Unit) none
  constructor
  · rw [h.1.2]; rfl
  · rw [(h.2 5 (by norm_num)).2]; rfl

/-- C5: `build_interfaces` is deterministic — two calls whose arguments are
equal return result lists of the same length, with, entry by entry, the same
interface structure and equal `match_area` and `von_mises_strain` values.
In this embedding all builder state is explicit and the function is pure, so
the two calls denote the same value. -/
theorem build_interfaces_deterministic {Z I T FS : Type} (ar ar' : Z → ℚ)
    (st st' : Z → Option ℚ) (cib cib' : Builder Z I T) (t t' : T)
    (ft ft' sth sth' : ℤ) (num num' : Option ℤ) (cb cb' : Bool)
    (fs fs' : Option FS) (fm fm' : Option Miller)
    (har : ar = ar') (hst : st = st') (hcib : cib = cib') (ht : t = t')
    (hft : ft = ft') (hsth : sth = sth') (hnum : num = num') (hcb : cb = cb')
    (hfs : fs = fs') (hfm : fm = fm') :
    (build_interfaces ar st cib t ft sth num cb fs fm).1.length =
      (build_interfaces ar' st' cib' t' ft' sth' num' cb' fs' fm').1.length ∧
    ∀ (j : ℕ) (e e' : InterfaceEntry I),
      (build_interfaces ar st cib t ft sth num cb fs fm).1[j]? = some e →
      (build_interfaces ar' st' cib' t' ft' sth' num' cb' fs' fm').1[j]? = some e' →
      e.struct = e'.struct ∧ e.match_area = e'.match_area ∧
        e.von_mises_strain = e'.von_mises_strain := by
  subst har hst hcib ht hft hsth hnum hcb hfs hfm
  refine ⟨rfl, ?_⟩
  intro j e e' he he'
  rw [he] at he'
  cases he'
  exact ⟨rfl, rfl, rfl⟩

/-- Evaluation of C5 on a concrete builder. -/
theorem build_interfaces_deterministic_witness :
    (build_interfaces areaOfNat strainTryNat cib1 () 18 12 (some 10) false
        (none : Option Unit) none).1.length =
      (build_interfaces areaOfNat strainTryNat cib1 () 18 12 (some 10) false
        (none : Option Unit) none).1.length ∧
    (⟨7, 3, 0⟩ : InterfaceEntry ℕ).match_area =
      (⟨7, 3, 0⟩ : InterfaceEntry ℕ).match_area := by
  have h := build_interfaces_deterministic areaOfNat areaOfNat strainTryNat
    strainTryNat cib1 cib1 () () 18 18 12 12 (some 10) (some 10) false false
    (none : Option Unit) (none : Option Unit) none none
    rfl rfl rfl rfl rfl rfl rfl rfl rfl rfl
  exact ⟨h.1, (h.2 0 ⟨7, 3, 0⟩ ⟨7, 3, 0⟩ (by decide) (by decide)).2.1 ▸ rfl⟩

/-- C6: the progress callback is advisory: the returned list is the same
whether or not a callback is supplied, no invocation occurs without one, and
with one the callback is invoked exactly once after each produced interface,
the `k`-th invocation receiving `(k + 1, total match count)` — i.e.
`(len(results) so far, count_zsl_matches cib)`. -/
theorem build_interfaces_callback_advisory {Z I T FS : Type} (ar : Z → ℚ)
    (st : Z → Option ℚ) (cib : Builder Z I T) (t : T) (ft sth : ℤ)
    (num : Option ℤ) (fs : Option FS) (fm : Option Miller) :
    (∀ cb cb' : Bool,
      (build_interfaces ar st cib t ft sth num cb fs fm).1 =
        (build_interfaces ar st cib t ft sth num cb' fs fm).1) ∧
    (build_interfaces ar st cib t ft sth num false fs fm).2 = [] ∧
    (build_interfaces ar st cib t ft sth num true fs fm).2.length =
      (build_interfaces ar st cib t ft sth num true fs fm).1.length ∧
    ∀ k : ℕ, k < (build_interfaces ar st cib t ft sth num true fs fm).1.length →
      (build_interfaces ar st cib t ft sth num true fs fm).2[k]? =
        some (k + 1, count_zsl_matches cib) := by
  refine ⟨fun cb cb' => rfl, rfl, ?_, ?_⟩
  · show (buildLoop ar st cib.zsl_matches (fs.isSome && fm.isSome) num
        (count_zsl_matches cib) (cib.get_interfaces t ft sth) 0).2.length = _
    rw [buildLoop_snd, logFrom_length]
    rfl
  · intro k hk
    show (buildLoop ar st cib.zsl_matches (fs.isSome && fm.isSome) num
        (count_zsl_matches cib) (cib.get_interfaces t ft sth) 0).2[k]? = _
    rw [buildLoop_snd, logFrom_get]
    have hk' : k < (buildLoop ar st cib.zsl_matches (fs.isSome && fm.isSome) num
        (count_zsl_matches cib) (cib.get_interfaces t ft sth) 0).1.length := hk
    rw [if_pos hk']
    rw [Nat.zero_add]

/-- Evaluation of C6 on a concrete builder: the single invocation reports
`(1, 1)`. -/
theorem build_interfaces_callback_advisory_witness :
    (build_interfaces areaOfNat strainTryNat cib1 () 18 12 (some 10) true
        (none : Option Unit) none).2[0]? = some (1, 1) := by
  have h := build_interfaces_callback_advisory areaOfNat strainTryNat cib1 ()
    18 12 (some 10) (none : Option Unit) none
  have := h.2.2.2 0 (by decide)
  simpa using this

/-- C8: when `num_interfaces` is zero or negative and the iterator yields at
least one interface, `build_interfaces` returns exactly one entry, not zero:
the count bound is only checked after the first append. -/
theorem build_interfaces_nonpositive_count {Z I T FS : Type} (ar : Z → ℚ)
    (st : Z → Option ℚ) (cib : Builder Z I T) (t : T) (ft sth : ℤ) (n : ℤ)
    (cb : Bool) (fs : Option FS) (fm : Option Miller)
    (hn : n ≤ 0) (hne : cib.get_interfaces t ft sth ≠ []) :
    (build_interfaces ar st cib t ft sth (some n) cb fs fm).1.length = 1 := by
  have h := buildLoop_fst ar st cib.zsl_matches (fs.isSome && fm.isSome)
    (count_zsl_matches cib) (some n) (cib.get_interfaces t ft sth) 0
  have hcount : loopBound (some n) (cib.get_interfaces t ft sth).length 0 = 1 := by
    rw [loopBound, takeCount]
    rw [if_pos (by omega)]
  rw [hcount] at h
  rw [show (build_interfaces ar st cib t ft sth (some n) cb fs fm).1 =
    (buildLoop ar st cib.zsl_matches (fs.isSome && fm.isSome) (some n)
      (count_zsl_matches cib) (cib.get_interfaces t ft sth) 0).1 from rfl, h]
  rw [entriesFrom_length ar st _ _ _ _, List.length_take]
  have : (cib.get_interfaces t ft sth).length ≠ 0 := by
    intro h0
    exact hne (List.length_eq_zero.mp h0)
  omega

/-- Evaluation of C8 at `num_interfaces = 0` on a one-interface builder. -/
theorem build_interfaces_nonpositive_count_witness :
    (build_interfaces areaOfNat strainTryNat cib1 () 18 12 (some 0) false
        (none : Option Unit) none).1.length = 1 :=
  build_interfaces_nonpositive_count areaOfNat strainTryNat cib1 () 18 12 0
    false (none : Option Unit) none (by norm_num) (by decide)

/-! ### interface_builder.py : match provenance of result entries (C3) -/

/-- C3 counterexample: as stated the claim is false.  `build_interfaces`
computes a real strain only when the optional `film_structure` and
`film_miller` arguments are both supplied (the code's defaults — and the
only call in `app.py` — omit them).  Here the builder's single match has
`match_area = 3` and its strain computation succeeds with value `4`, yet the
produced entry records `von_mises_strain = 0`, the placeholder. -/
theorem build_interfaces_strain_placeholder_cex :
    (build_interfaces areaOfNat strainTryNat cib1 () 18 12 (some 10) false
        (none : Option Unit) none).1 = [⟨7, 3, 0⟩] ∧
    cib1.zsl_matches = [3] ∧ strainTryNat 3 = some 4 ∧ (0 : ℚ) ≠ 4 := by
  refine ⟨by decide, rfl, by decide, by norm_num⟩

/-- C3 amended: when `film_structure` and `film_miller` are both supplied,
every produced entry in range of the match list carries that match's
`match_area`, and, when the strain computation succeeds, the von Mises
strain computed from the match's transformation; with either argument
omitted the strain field is the placeholder `0.0` (and entries beyond the
match list get area `0.0`). -/
theorem build_interfaces_match_provenance {Z I T FS : Type} (ar : Z → ℚ)
    (st : Z → Option ℚ) (cib : Builder Z I T) (t : T) (ft sth : ℤ)
    (num : Option ℤ) (cb : Bool) (fsv : FS) (fmv : Miller)
    (j : ℕ) (e : InterfaceEntry I) (m : Z) (s : ℚ)
    (hm : cib.zsl_matches[j]? = some m) (hs : st m = some s)
    (he : (build_interfaces ar st cib t ft sth num cb
        (some fsv) (some fmv)).1[j]? = some e) :
    e.match_area = ar m ∧ e.von_mises_strain = s := by
  have hloop := buildLoop_fst ar st cib.zsl_matches
    ((some fsv).isSome && (some fmv).isSome) (count_zsl_matches cib) num
    (cib.get_interfaces t ft sth) 0
  rw [show (build_interfaces ar st cib t ft sth num cb (some fsv) (some fmv)).1 =
    (buildLoop ar st cib.zsl_matches ((some fsv).isSome && (some fmv).isSome) num
      (count_zsl_matches cib) (cib.get_interfaces t ft sth) 0).1 from rfl,
    hloop, entriesFrom_get] at he
  obtain ⟨x, _, hex⟩ := Option.map_eq_some.mp he
  subst hex
  rw [entryAt]
  constructor
  · simp only [Nat.zero_add, hm]
    rfl
  · simp only [Nat.zero_add, hm]
    show (st m).getD 0 = s
    rw [hs]
    rfl

/-- Evaluation of the amended C3 on a one-match builder with the film
arguments supplied: the entry carries area `3` and computed strain `4`. -/
theorem build_interfaces_match_provenance_witness :
    (⟨7, 3, 4⟩ : InterfaceEntry ℕ).match_area = areaOfNat 3 ∧
    (⟨7, 3, 4⟩ : InterfaceEntry ℕ).von_mises_strain = 4 :=
  build_interfaces_match_provenance areaOfNat strainTryNat cib1 () 18 12
    (some 10) false () (1, 0, 0) 0 ⟨7, 3, 4⟩ 3 4 (by decide) (by decide)
    (by decide)

/-! ### interface_builder.py : parameter validation (C4) -/

/-- C4 counterexample: neither `get_terminations` nor `build_interfaces`
performs any parameter validation, so the claimed synchronous rejection does
not exist.  With non-positive thicknesses (`-5`, `-3`) `build_interfaces`
proceeds into the generation loop and returns the fully processed entry
list, and with an all-zero Miller index on both sides and a negative
`max_area` `get_terminations` returns the constructed builder's termination
list — no error path is ever taken (the source of these functions contains
none). -/
theorem validation_missing_cex :
    (build_interfaces areaOfNat strainTryNat cib1 () (-5) (-3) none false
        (none : Option Unit) none).1 = [⟨7, 3, 0⟩] ∧
    (get_terminations mkBuilderConst () () (0, 0, 0) (0, 0, 0) (-100)).2 = [()] :=
  ⟨by decide, rfl⟩

/-- C4 amended: no validation is performed.  For every input — including a
non-positive thickness, an all-zero Miller index and a non-positive
`max_area` — `get_terminations` returns the constructed builder and its
terminations, and `build_interfaces` proceeds into the generation loop,
returning a non-empty result whenever the iterator yields anything. -/
theorem validation_missing {Z I T FS S₀ : Type}
    (mk : S₀ → S₀ → Miller → Miller → ℚ → Builder Z I T)
    (s f : S₀) (sm fmm : Miller) (a : ℚ) (ar : Z → ℚ) (st : Z → Option ℚ)
    (cib : Builder Z I T) (t : T) (ft sth : ℤ) (num : Option ℤ) (cb : Bool)
    (fs : Option FS) (fm : Option Miller)
    (_hft : ft ≤ 0) (hne : cib.get_interfaces t ft sth ≠ []) :
    get_terminations mk s f sm fmm a =
      (mk s f sm fmm a, (mk s f sm fmm a).terminations) ∧
    (build_interfaces ar st cib t ft sth num cb fs fm).1 ≠ [] := by
  refine ⟨rfl, ?_⟩
  have hloop := buildLoop_fst ar st cib.zsl_matches (fs.isSome && fm.isSome)
    (count_zsl_matches cib) num (cib.get_interfaces t ft sth) 0
  rw [show (build_interfaces ar st cib t ft sth num cb fs fm).1 =
    (buildLoop ar st cib.zsl_matches (fs.isSome && fm.isSome) num
      (count_zsl_matches cib) (cib.get_interfaces t ft sth) 0).1 from rfl, hloop]
  intro hnil
  have hlen := congrArg List.length hnil
  rw [entriesFrom_length ar st _ _ _ _, List.length_take, List.length_nil] at hlen
  have hit : (cib.get_interfaces t ft sth).length ≠ 0 := by
    intro h0
    exact hne (List.length_eq_zero.mp h0)
  cases num with
  | none =>
      rw [loopBound] at hlen
      omega
  | some n =>
      rw [loopBound] at hlen
      have := takeCount_pos n 0
      omega

/-- Evaluation of the amended C4 at concrete invalid parameters. -/
theorem validation_missing_witness :
    get_terminations mkBuilderConst () () (0, 0, 0) (1, 1, 1) (-7) =
      (cib1, [()]) ∧
    (build_interfaces areaOfNat strainTryNat cib1 () (-5) 12 none false
        (none : Option Unit) none).1 ≠ [] := by
  have h := validation_missing mkBuilderConst () () (0, 0, 0) (1, 1, 1) (-7)
    areaOfNat strainTryNat cib1 () (-5) 12 none false (none : Option Unit) none
    (by norm_num) (by decide)
  exact ⟨h.1, h.2⟩

/-! ### interface_builder.py : analyze_substrates (C1) -/

lemma betterMatch_true_le {a b : SubstrateMatch} (h : betterMatch a b = true) :
    a.von_mises_strain ≤ b.von_mises_strain := by
  rw [betterMatch, decide_eq_true_eq] at h
  rcases h with h | ⟨h, _⟩
  · exact le_of_lt h
  · exact le_of_eq h

lemma betterMatch_false_le {a b : SubstrateMatch} (h : betterMatch a b = false) :
    b.von_mises_strain ≤ a.von_mises_strain := by
  rw [betterMatch, decide_eq_false_iff_not] at h
  by_contra hc
  exact h (Or.inl (not_le.mp hc))

lemma bestOf_cons (m y : SubstrateMatch) (ms : List SubstrateMatch) :
    bestOf m (y :: ms) = bestOf (if betterMatch y m then y else m) ms := rfl

lemma bestOf_nil (m : SubstrateMatch) : bestOf m [] = m := rfl

lemma bestOf_mem : ∀ (ms : List SubstrateMatch) (m : SubstrateMatch),
    bestOf m ms ∈ m :: ms := by
  intro ms
  induction ms with
  | nil => intro m; rw [bestOf_nil]; exact List.mem_cons_self m []
  | cons y ms ih =>
      intro m
      rw [bestOf_cons]
      rcases List.mem_cons.mp (ih (if betterMatch y m then y else m)) with h | h
      · rw [h]
        by_cases hb : betterMatch y m
        · rw [if_pos hb]
          exact List.mem_cons.mpr (Or.inr (List.mem_cons_self y ms))
        · rw [if_neg hb]
          exact List.mem_cons_self m (y :: ms)
      · exact List.mem_cons.mpr (Or.inr (List.mem_cons.mpr (Or.inr h)))

lemma bestOf_le_strain : ∀ (ms : List SubstrateMatch) (m x : SubstrateMatch),
    x ∈ m :: ms →
    (bestOf m ms).von_mises_strain ≤ x.von_mises_strain := by
  intro ms
  induction ms with
  | nil =>
      intro m x hx
      rw [List.mem_singleton.mp hx, bestOf_nil]
  | cons y ms ih =>
      intro m x hx
      rw [bestOf_cons]
      have hseed :
          (bestOf (if betterMatch y m then y else m) ms).von_mises_strain ≤
            (if betterMatch y m then y else m).von_mises_strain :=
        ih _ _ (List.mem_cons_self _ _)
      have hseed_m :
          ((if betterMatch y m then y else m) : SubstrateMatch).von_mises_strain ≤
            m.von_mises_strain := by
        by_cases hb : betterMatch y m
        · rw [if_pos hb]; exact betterMatch_true_le hb
        · rw [if_neg hb]
      have hseed_y :
          ((if betterMatch y m then y else m) : SubstrateMatch).von_mises_strain ≤
            y.von_mises_strain := by
        by_cases hb : betterMatch y m
        · rw [if_pos hb]
        · rw [if_neg hb]
          exact betterMatch_false_le (Bool.eq_false_iff.mpr hb)
      rcases List.mem_cons.mp hx with h1 | h2
      · rw [h1]
        exact le_trans hseed hseed_m
      · rcases List.mem_cons.mp h2 with h3 | h4
        · rw [h3]
          exact le_trans hseed hseed_y
        · exact ih _ x (List.mem_cons.mpr (Or.inr h4))

lemma pickBest_pair {pool : List SubstrateMatch} {p : Miller × Miller}
    {r : SubstrateMatch} (h : pickBest pool p = some r) :
    matchPair r = p ∧ r ∈ pool ∧
    ∀ m ∈ pool, matchPair m = p → r.von_mises_strain ≤ m.von_mises_strain := by
  rw [pickBest] at h
  rcases hE : pool.filter (fun m => decide (matchPair m = p)) with _ | ⟨m, ms⟩
  · rw [hE] at h; exact absurd h (by simp)
  · rw [hE] at h
    have hr : r = bestOf m ms := by
      cases h; rfl
    have hrmem : r ∈ m :: ms := hr ▸ bestOf_mem ms m
    have hrfil : r ∈ pool.filter (fun m => decide (matchPair m = p)) := hE ▸ hrmem
    have hrp : matchPair r = p := by
      have := List.of_mem_filter hrfil
      simpa using this
    refine ⟨hrp, List.mem_of_mem_filter hrfil, ?_⟩
    intro x hx hxp
    have hxfil : x ∈ pool.filter (fun m => decide (matchPair m = p)) :=
      List.mem_filter.mpr ⟨hx, by simpa using hxp⟩
    rw [hE] at hxfil
    exact hr ▸ bestOf_le_strain ms m x hxfil

lemma pickBest_isSome {pool : List SubstrateMatch} {p : Miller × Miller} :
    (pickBest pool p).isSome = true ↔ ∃ m ∈ pool, matchPair m = p := by
  rw [pickBest]
  rcases hE : pool.filter (fun m => decide (matchPair m = p)) with _ | ⟨m, ms⟩
  · simp only [Option.isSome_none, Bool.false_eq_true, false_iff]
    intro ⟨x, hx, hxp⟩
    have : x ∈ pool.filter (fun m => decide (matchPair m = p)) :=
      List.mem_filter.mpr ⟨hx, by simpa using hxp⟩
    rw [hE] at this
    exact absurd this (List.not_mem_nil x)
  · simp only [Option.isSome_some, true_iff]
    have hm : m ∈ pool.filter (fun m => decide (matchPair m = p)) := by
      rw [hE]; exact List.mem_cons_self m ms
    exact ⟨m, List.mem_of_mem_filter hm, by simpa using List.of_mem_filter hm⟩

lemma filterMap_pickBest_count (pool : List SubstrateMatch) :
    ∀ (L : List (Miller × Miller)), L.Nodup → ∀ p : Miller × Miller,
      ((L.filterMap (pickBest pool)).filter
          (fun r => decide (matchPair r = p))).length =
        if p ∈ L ∧ ∃ m ∈ pool, matchPair m = p then 1 else 0 := by
  intro L
  induction L with
  | nil =>
      intro _ p
      simp
  | cons q L ih =>
      intro hnd p
      have hndL : L.Nodup := (List.nodup_cons.mp hnd).2
      have hqL : q ∉ L := (List.nodup_cons.mp hnd).1
      rcases hq : pickBest pool q with _ | r
      · have hnoq : ¬ ∃ m ∈ pool, matchPair m = q := by
          intro hex
          have := pickBest_isSome.mpr hex
          rw [hq] at this
          exact Bool.false_ne_true this
        rw [List.filterMap_cons_none hq, ih hndL p]
        by_cases hpq : p = q
        · subst hpq
          rw [if_neg (fun hand => hnoq hand.2), if_neg (fun hand => hnoq hand.2)]
        · have : (p ∈ q :: L ∧ ∃ m ∈ pool, matchPair m = p) ↔
              (p ∈ L ∧ ∃ m ∈ pool, matchPair m = p) := by
            constructor
            · intro ⟨hmem, hex⟩
              rcases List.mem_cons.mp hmem with h | h
              · exact absurd h hpq
              · exact ⟨h, hex⟩
            · intro ⟨hmem, hex⟩
              exact ⟨List.mem_cons.mpr (Or.inr hmem), hex⟩
          rw [if_congr this rfl rfl]
      · have hrp : matchPair r = q := (pickBest_pair hq).1
        have hexq : ∃ m ∈ pool, matchPair m = q := by
          have := @pickBest_isSome pool q
          rw [hq] at this
          exact this.mp rfl
        rw [List.filterMap_cons_some hq]
        by_cases hpq : p = q
        · subst hpq
          rw [List.filter_cons_of_pos (by simpa using hrp), List.length_cons,
            ih hndL p]
          rw [if_neg (fun hand => hqL hand.1), if_pos ⟨List.mem_cons_self p L, hexq⟩]
        · rw [List.filter_cons_of_neg (by simp [hrp]; exact fun hc => hpq hc.symm),
            ih hndL p]
          have : (p ∈ q :: L ∧ ∃ m ∈ pool, matchPair m = p) ↔
              (p ∈ L ∧ ∃ m ∈ pool, matchPair m = p) := by
            constructor
            · intro ⟨hmem, hex⟩
              rcases List.mem_cons.mp hmem with h | h
              · exact absurd h hpq
              · exact ⟨h, hex⟩
            · intro ⟨hmem, hex⟩
              exact ⟨List.mem_cons.mpr (Or.inr hmem), hex⟩
          rw [if_congr this rfl rfl]

lemma calculateLowest_count (pool : List SubstrateMatch) (p : Miller × Miller) :
    ((calculateLowest pool).filter (fun r => decide (matchPair r = p))).length =
      if ∃ m ∈ pool, matchPair m = p then 1 else 0 := by
  rw [calculateLowest,
    filterMap_pickBest_count pool _ (pool.map matchPair).nodup_dedup p]
  by_cases hex : ∃ m ∈ pool, matchPair m = p
  · rw [if_pos hex]
    obtain ⟨m, hm, hmp⟩ := hex
    have hpin : p ∈ (pool.map matchPair).dedup :=
      List.mem_dedup.mpr (List.mem_map.mpr ⟨m, hm, hmp⟩)
    rw [if_pos ⟨hpin, ⟨m, hm, hmp⟩⟩]
  · rw [if_neg hex, if_neg (fun hand => hex hand.2)]

lemma calculateLowest_mem {pool : List SubstrateMatch} {r : SubstrateMatch}
    (h : r ∈ calculateLowest pool) :
    r ∈ pool ∧
    ∀ m ∈ pool, matchPair m = matchPair r →
      r.von_mises_strain ≤ m.von_mises_strain := by
  rw [calculateLowest] at h
  obtain ⟨p, _, hpick⟩ := List.mem_filterMap.mp h
  have := pickBest_pair hpick
  exact ⟨this.2.1, fun m hm hmp => this.2.2 m hm (this.1 ▸ hmp)⟩

/-- C1: `analyze_substrates` returns a list sorted in ascending order of
`von_mises_strain` containing exactly one result row per orientation pair
that has at least one ZSL match in the pool (rows for other pairs never
appear), and each returned row is a pool match of its pair with minimal
strain among that pair's matches (the single lowest-strain match per pair,
its four attributes copied into the row). -/
theorem analyze_substrates_sorted_one_per_pair (pool : List SubstrateMatch) :
    (analyze_substrates pool).Sorted strainLE ∧
    (∀ p : Miller × Miller,
      ((analyze_substrates pool).filter
          (fun r => decide (matchPair r = p))).length =
        if ∃ m ∈ pool, matchPair m = p then 1 else 0) ∧
    ∀ r ∈ analyze_substrates pool,
      r ∈ pool ∧
      ∀ m ∈ pool, matchPair m = matchPair r →
        r.von_mises_strain ≤ m.von_mises_strain := by
  refine ⟨List.sorted_insertionSort strainLE (calculateLowest pool), ?_, ?_⟩
  · intro p
    have hperm : (analyze_substrates pool).Perm (calculateLowest pool) :=
      List.perm_insertionSort strainLE (calculateLowest pool)
    rw [(hperm.filter (fun r => decide (matchPair r = p))).length_eq]
    exact calculateLowest_count pool p
  · intro r hr
    have hperm : (analyze_substrates pool).Perm (calculateLowest pool) :=
      List.perm_insertionSort strainLE (calculateLowest pool)
    exact calculateLowest_mem (hperm.mem_iff.mp hr)

/-- Evaluation of C1 on a concrete pool: the pair ((1,0,0),(1,0,0)) has two
matches (strains 3 and 1) and gets exactly one row; the returned row for
that pair is its strain-1 match, which is minimal. -/
theorem analyze_substrates_sorted_one_per_pair_witness :
    ((analyze_substrates pool0).filter
        (fun r => decide (matchPair r = ((1, 0, 0), (1, 0, 0))))).length = 1 ∧
    (⟨(1, 0, 0), (1, 0, 0), 1, 5⟩ : SubstrateMatch) ∈ analyze_substrates pool0 ∧
    (⟨(1, 0, 0), (1, 0, 0), 1, 5⟩ : SubstrateMatch).von_mises_strain ≤
      (⟨(1, 0, 0), (1, 0, 0), 3, 10⟩ : SubstrateMatch).von_mises_strain := by
  have h := analyze_substrates_sorted_one_per_pair pool0
  refine ⟨?_, ?_, ?_⟩
  · rw [h.2.1 ((1, 0, 0), (1, 0, 0))]
    rw [if_pos ⟨⟨(1, 0, 0), (1, 0, 0), 3, 10⟩, by decide, by decide⟩]
  · decide
  · exact (h.2.2 ⟨(1, 0, 0), (1, 0, 0), 1, 5⟩ (by decide)).2
      ⟨(1, 0, 0), (1, 0, 0), 3, 10⟩ (by decide) (by decide)

end CrystalViewer
